import Mathlib

/-!
Verification of the task dispatcher of uglifyjs-webpack-plugin.

This file shallowly embeds `src/uglify/index.js`: the class constructor
(resolution of the `parallel` option into a cache location and a worker
count), the `worker` dispatch method (inline execution versus the
worker-farm path), and `runTasks` (per-task cache lookup, compute
fallback, best-effort cache write, index-keyed result recording, and the
count-down completion callback).

Conventions of the embedding:
* JS option values are modelled by small inductive types (`CacheOpt`,
  `WorkersOpt`, `ParallelArg`); `os.cpus().length` and the result of
  `findCacheDir` are parameters.
* The asynchronous behaviour of `cacache.get` / `cacache.put` and of the
  compute function is captured by an environment (`CacheEnv`, plus a
  `compute` function returning `Except`).  Each task's processing is a
  straight-line chain of continuations with no cross-task interaction
  except the shared counter, so its contribution is a pure per-task
  `Fate`; a whole run of `runTasks` is the fold of the shared `step`
  closure over an arbitrary completion order of the tasks that do step.
* A promise handler chain that is never resumed (an unhandled rejection
  of `JSON.parse` in the hit handler, or a `cacache.put` that never
  settles) yields the fate `wedged`: the task never reaches `step`.
-/

namespace UWP

/-- Values the `cache` option of the dispatcher constructor can take:
a boolean, a directory string, or `undefined` (field absent). -/
inductive CacheOpt : Type
  | bool (b : Bool)
  | str (s : String)
  | undef
  deriving DecidableEq, Repr

/-- Values the `workers` option of the dispatcher constructor can take:
a boolean, a number, or `undefined` (field absent). -/
inductive WorkersOpt : Type
  | bool (b : Bool)
  | num (n : Int)
  | undef
  deriving DecidableEq, Repr

/-- The `parallel` argument of the constructor: either a boolean or an
options object `{ cache, workers }`; the default argument `{}` is
`obj undef undef`. -/
inductive ParallelArg : Type
  | bool (b : Bool)
  | obj (cache : CacheOpt) (workers : WorkersOpt)
  deriving DecidableEq, Repr

/-- The dispatcher state set up by the constructor: `this.cache` (a
resolved cache option value) and `this.workers` (a JS number). -/
structure UglifyCfg : Type where
  cache : CacheOpt
  workers : Int
  deriving DecidableEq, Repr

/-- JS `Number(workers) || 0` for the values `workers` can hold on the
non-`true` branch of line 23 of `src/uglify/index.js`: `Number`
of a boolean is 0/1, of a number is itself, of `undefined` is `NaN`
(which `|| 0` turns into 0); `n || 0` keeps any nonzero number. -/
def jsNumberOr0 : WorkersOpt → Int
  | .bool b => if b then 1 else 0
  | .num n => n
  | .undef => 0

/-- The constructor of `src/uglify/index.js` (lines 16-24): a boolean
`parallel` argument is expanded to `{ cache: parallel, workers:
parallel }`; `cache === true` resolves to the `findCacheDir` result
(parameter `cacheDir`); `workers === true` resolves to
`os.cpus().length - 1` (with `cpus` a parameter), and any other value
to `Math.min(Number(workers) || 0, os.cpus().length - 1)`. -/
def mkUglify (cpus : Nat) (cacheDir : String) (parallel : ParallelArg) : UglifyCfg :=
  let opts : CacheOpt × WorkersOpt :=
    match parallel with
    | .bool b => (.bool b, .bool b)
    | .obj c w => (c, w)
  { cache := if opts.1 = CacheOpt.bool true then .str cacheDir else opts.1,
    workers :=
      if opts.2 = WorkersOpt.bool true then (cpus : Int) - 1
      else min (jsNumberOr0 opts.2) ((cpus : Int) - 1) }

/-- JS truthiness of the resolved `this.cache` value, as tested by
`if (this.cache)` in `runTasks`: a nonempty string is truthy, a
boolean is itself, `undefined` is falsy. -/
def cacheTruthy : CacheOpt → Bool
  | .bool b => b
  | .str s => decide (s ≠ "")
  | .undef => false

/-- A task as consumed by `runTasks`: the precomputed cache key plus the
rest of the payload (input, options, source-map context, ...), which the
dispatcher never inspects. -/
structure Task (π : Type) : Type where
  cacheKey : String
  payload : π
  deriving DecidableEq, Repr

/-- Behaviour of the `cacache.get` promise for a key: it either resolves
with a stored blob or rejects (missing key and read error are both
rejections of the promise). -/
inductive GetResult : Type
  | hit (blob : String)
  | reject
  deriving DecidableEq, Repr

/-- Behaviour of the `cacache.put` promise for a key: it resolves,
rejects, or never settles. -/
inductive PutResult : Type
  | resolves
  | rejects
  | pending
  deriving DecidableEq, Repr

/-- The cache store's behaviour during one run, keyed by cache key. -/
structure CacheEnv : Type where
  get : String → GetResult
  put : String → PutResult

/-- A recorded slot value: `results[index]` receives either the data of
a successful compute / parsed cache hit, or the `{ error }` object built
from a compute error (line 71 of `src/uglify/index.js`). -/
inductive Outcome (α ε : Type) : Type
  | data (d : α)
  | error (e : ε)
  deriving DecidableEq, Repr

/-- What becomes of one task's continuation chain: it either invokes
`step` once with an `Outcome` (after `computeCount` compute invocations,
0 or 1), or it is `wedged` — no continuation ever reaches `step`
(unhandled `JSON.parse` rejection in the hit handler, or a cache write
that never settles). -/
inductive Fate (α ε : Type) : Type
  | stepped (r : Outcome α ε) (computeCount : Nat)
  | wedged (computeCount : Nat)
  deriving DecidableEq, Repr

/-- The number of compute invocations a fate records. -/
def Fate.count : Fate α ε → Nat
  | .stepped _ c => c
  | .wedged c => c

/-- The outcome a fate delivers to `step`, if any. -/
def fateOutcome? : Fate α ε → Option (Outcome α ε)
  | .stepped r _ => some r
  | .wedged _ => none

/-- The `enqueue` closure of `runTasks` (lines 69-79): invoke the worker
once; a callback error becomes the slot value `{ error }` and skips the
cache write; a success value is written through to the cache when a
cache is configured, and `step` runs in the `.then(done, done)`
continuation of that write — so only once the write settles. -/
def enqueueFate (cacheOn : Bool) (cenv : CacheEnv) (compute : Task π → Except ε α)
    (t : Task π) : Fate α ε :=
  match compute t with
  | .error e => .stepped (.error e) 1
  | .ok d =>
    if cacheOn then
      match cenv.put t.cacheKey with
      | .pending => .wedged 1
      | _ => .stepped (.data d) 1
    else .stepped (.data d) 1

/-- The per-task continuation chain of `runTasks` (lines 68-85): with a
cache configured, `cacache.get` resolving runs
`step(index, JSON.parse(data))` — a parse failure is an unhandled
rejection, so neither `enqueue` nor `step` ever runs; a rejected get
runs `enqueue`.  Without a cache, `enqueue` runs directly. -/
def taskFate (cacheOn : Bool) (cenv : CacheEnv) (compute : Task π → Except ε α)
    (parse : String → Option α) (t : Task π) : Fate α ε :=
  if cacheOn then
    match cenv.get t.cacheKey with
    | .hit blob =>
      match parse blob with
      | some d => .stepped (.data d) 0
      | none => .wedged 0
    | .reject => enqueueFate cacheOn cenv compute t
  else enqueueFate cacheOn cenv compute t

/-- The slot value `{ error } | data` produced by the worker callback
(line 71) for a given compute function. -/
def computeOutcome (compute : Task π → Except ε α) (t : Task π) : Outcome α ε :=
  match compute t with
  | .ok d => .data d
  | .error e => .error e

/-- The dispatcher's shared state inside one `runTasks` call: the
count-down `toRun`, the index-keyed `results` array (a slot is `none`
until its task's `step` runs), and the list of completion-callback
invocations so far, each recorded with the results array it delivered. -/
structure DState (α ε : Type) : Type where
  toRun : Int
  results : List (Option (Outcome α ε))
  calls : List (List (Option (Outcome α ε)))
  deriving DecidableEq, Repr

/-- The `step` closure of `runTasks` (lines 60-66): decrement `toRun`,
record the outcome at the task's index, and invoke the callback exactly
when `toRun` hits 0. -/
def stepD (s : DState α ε) (i : Nat) (r : Outcome α ε) : DState α ε :=
  { toRun := s.toRun - 1,
    results := s.results.set i (some r),
    calls :=
      if s.toRun - 1 = 0 then s.calls ++ [s.results.set i (some r)]
      else s.calls }

/-- The event of index `i` in a run: the outcome its task's continuation
chain eventually hands to `step`, or `none` when the chain is wedged or
the index is out of range. -/
def evOf (cacheOn : Bool) (cenv : CacheEnv) (compute : Task π → Except ε α)
    (parse : String → Option α) (tasks : List (Task π)) (i : Nat) :
    Option (Outcome α ε) :=
  (tasks[i]?).bind fun t => fateOutcome? (taskFate cacheOn cenv compute parse t)

/-- Processing one scheduled index: a real event runs `step`; a wedged
or out-of-range index contributes nothing (its continuation never
fires). -/
def runStep (ev : Nat → Option (Outcome α ε)) (s : DState α ε) (i : Nat) :
    DState α ε :=
  match ev i with
  | some r => stepD s i r
  | none => s

/-- The dispatcher state at the start of a non-empty batch of `n`
tasks: `toRun = n`, an empty results array, no callback invocation. -/
def initState (α ε : Type) (n : Nat) : DState α ε :=
  { toRun := (n : Int), results := List.replicate n none, calls := [] }

/-- `runTasks` (lines 52-86) under a given completion schedule `order`
(the sequence in which the per-task continuations reach `step`; the
interleaving is arbitrary, so theorems quantify over it).  An empty
batch invokes the callback immediately with an empty results array. -/
def runTasks (cacheOn : Bool) (cenv : CacheEnv) (compute : Task π → Except ε α)
    (parse : String → Option α) (tasks : List (Task π)) (order : List Nat) :
    DState α ε :=
  if tasks.isEmpty then { toRun := 0, results := [], calls := [[]] }
  else order.foldl (runStep (evOf cacheOn cenv compute parse tasks))
    (initState α ε tasks.length)

/-- Modelled from the spec: the `encode` replacer of
`src/uglify/serialization` is not under `src/`; per the spec's worker
transport protocol the request is the serialized task payload with the
cache key excluded, so the replacer drops the `cacheKey` field and
keeps every other field. -/
def encodeReplacer (kv : String × String) : Option (String × String) :=
  if kv.1 = "cacheKey" then none else some kv

/-- The request `JSON.stringify(opt, encode)` built on line 31 of
`src/uglify/index.js`, as its field list: the task's own `cacheKey`
field followed by the payload's fields (`payloadFields` serializes the
payload part), filtered through the `encode` replacer. -/
def requestFields (payloadFields : π → List (String × String)) (t : Task π) :
    List (String × String) :=
  ((("cacheKey", t.cacheKey)) :: payloadFields t.payload).filterMap encodeReplacer

/-- Modelled from the spec: `src/uglify/worker` and `src/uglify/minify`
are not under `src/`; per the spec a worker unit decodes the serialized
request and passes it to the Compute Function, returning its result or
error.  `dec` is the decoder; a request it cannot decode yields the
transport error `eFail`. -/
def farmCompute (minify : π → Except ε α) (payloadFields : π → List (String × String))
    (dec : List (String × String) → Option π) (eFail : ε) (t : Task π) :
    Except ε α :=
  match dec (requestFields payloadFields t) with
  | some p => minify p
  | none => .error eFail

/-- The `worker` method's dispatch (lines 26-44): with `this.workers > 0`
requests go through the serializing worker-farm path, otherwise the
compute function runs inline on the task. -/
def computeOf (workers : Int) (minify : π → Except ε α)
    (payloadFields : π → List (String × String))
    (dec : List (String × String) → Option π) (eFail : ε) :
    Task π → Except ε α :=
  if 0 < workers then farmCompute minify payloadFields dec eFail
  else fun t => minify t.payload

/-- A concrete one-field task used by concrete runs (payload `Unit`,
data `Nat`, errors `String`). -/
def exTask : Task Unit := { cacheKey := "k", payload := () }

/-- A second concrete task with a different cache key. -/
def exTask2 : Task Unit := { cacheKey := "k2", payload := () }

/-- A concrete deserializer: only the blob `"7"` parses (to `7`); any
other stored blob fails to parse, as `JSON.parse` does on a corrupt
entry. -/
def exParse (s : String) : Option Nat :=
  if s = "7" then some (7 : Nat) else none

/-- A concrete compute function that always succeeds with `5`. -/
def exCompute (_ : Task Unit) : Except String Nat := .ok (5 : Nat)

/-- A concrete compute function that fails on the task keyed `"k2"` and
succeeds with `5` elsewhere. -/
def exComputeMix (t : Task Unit) : Except String Nat :=
  if t.cacheKey = "k2" then .error ("boom") else .ok (5 : Nat)

/-- A cache whose every get resolves with an unparseable blob and whose
every put resolves. -/
def exEnvBadBlob : CacheEnv :=
  { get := fun _ => .hit ("bad"), put := fun _ => .resolves }

/-- A cache whose every get rejects and whose every put resolves. -/
def exEnvMiss : CacheEnv :=
  { get := fun _ => .reject, put := fun _ => .resolves }

/-- A cache whose every get rejects and whose every put rejects. -/
def exEnvPutFails : CacheEnv :=
  { get := fun _ => .reject, put := fun _ => .rejects }

/-- A cache whose every get rejects and whose every put never settles. -/
def exEnvPendingPut : CacheEnv :=
  { get := fun _ => .reject, put := fun _ => .pending }

/-- A cache holding a parseable blob under key `"k"` and a corrupt blob
under every other key; every put resolves. -/
def exEnvMixed : CacheEnv :=
  { get := fun k => if k = "k" then .hit ("7") else .hit ("bad"),
    put := fun _ => .resolves }

/-- A cache holding the parseable blob `"7"` under every key. -/
def exEnvGood : CacheEnv :=
  { get := fun _ => .hit ("7"), put := fun _ => .resolves }

/-- A concrete compute function on payloads, for the worker-path runs. -/
def exMinify (_ : Unit) : Except String Nat := .ok (5 : Nat)

/-- A concrete payload serializer: one `input` field. -/
def exPayloadFields (_ : Unit) : List (String × String) := [("input", "x")]

/-- A concrete request decoder matching `exPayloadFields`. -/
def exDec (l : List (String × String)) : Option Unit :=
  if l = [("input", "x")] then some () else none

/-- The action of one scheduled index on the results array alone. -/
def setEv (ev : Nat → Option (Outcome α ε)) (l : List (Option (Outcome α ε)))
    (i : Nat) : List (Option (Outcome α ε)) :=
  match ev i with
  | some r => l.set i (some r)
  | none => l

/-! ## Helper lemmas about the `step` fold -/

theorem runStep_of_some (ev : Nat → Option (Outcome α ε)) (s : DState α ε)
    (i : Nat) (r : Outcome α ε) (h : ev i = some r) :
    runStep ev s i = stepD s i r := by
  simp [runStep, h]

theorem foldl_runStep_toRun (ev : Nat → Option (Outcome α ε)) (order : List Nat)
    (s : DState α ε) (hev : ∀ i ∈ order, (ev i).isSome) :
    (order.foldl (runStep ev) s).toRun = s.toRun - order.length := by
  induction order generalizing s with
  | nil => simp
  | cons j rest ih =>
    obtain ⟨r, hr⟩ := Option.isSome_iff_exists.mp (hev j (by simp))
    rw [List.foldl_cons, runStep_of_some ev s j r hr,
      ih (stepD s j r) (fun i hi => hev i (by simp [hi]))]
    simp only [stepD, List.length_cons]
    push_cast
    ring

theorem foldl_runStep_results (ev : Nat → Option (Outcome α ε)) (order : List Nat)
    (s : DState α ε) :
    (order.foldl (runStep ev) s).results = order.foldl (setEv ev) s.results := by
  induction order generalizing s with
  | nil => rfl
  | cons j rest ih =>
    rw [List.foldl_cons, List.foldl_cons]
    cases h : ev j with
    | none =>
      rw [show runStep ev s j = s by simp [runStep, h],
        show setEv ev s.results j = s.results by simp [setEv, h]]
      exact ih s
    | some r =>
      rw [runStep_of_some ev s j r h, ih (stepD s j r)]
      rw [show setEv ev s.results j = s.results.set j (some r) by simp [setEv, h]]
      rfl

theorem foldl_runStep_calls_lt (ev : Nat → Option (Outcome α ε)) (order : List Nat)
    (s : DState α ε) (hev : ∀ i ∈ order, (ev i).isSome)
    (hlt : (order.length : Int) < s.toRun) :
    (order.foldl (runStep ev) s).calls = s.calls := by
  induction order generalizing s with
  | nil => rfl
  | cons j rest ih =>
    obtain ⟨r, hr⟩ := Option.isSome_iff_exists.mp (hev j (by simp))
    rw [List.foldl_cons, runStep_of_some ev s j r hr]
    have hlen : ((j :: rest).length : Int) = (rest.length : Int) + 1 := by
      simp
    have hlt2 : (rest.length : Int) < (stepD s j r).toRun := by
      simp only [stepD]
      omega
    rw [ih (stepD s j r) (fun i hi => hev i (by simp [hi])) hlt2]
    simp only [stepD]
    have hne : ¬(s.toRun - 1 = 0) := by omega
    simp [hne]

theorem foldl_runStep_calls_done (ev : Nat → Option (Outcome α ε)) (order : List Nat)
    (s : DState α ε) (hev : ∀ i ∈ order, (ev i).isSome)
    (hlen : (order.length : Int) = s.toRun) (hpos : 0 < s.toRun) :
    (order.foldl (runStep ev) s).calls
      = s.calls ++ [(order.foldl (runStep ev) s).results] := by
  induction order generalizing s with
  | nil =>
    exfalso
    simp only [List.length_nil, Nat.cast_zero] at hlen
    omega
  | cons j rest ih =>
    obtain ⟨r, hr⟩ := Option.isSome_iff_exists.mp (hev j (by simp))
    rw [List.foldl_cons, runStep_of_some ev s j r hr]
    have hrl : (rest.length : Int) + 1 = s.toRun := by
      simpa using hlen
    by_cases hrest : rest = []
    · subst hrest
      have hz : s.toRun - 1 = 0 := by
        simp only [List.length_nil, Nat.cast_zero, zero_add] at hrl
        omega
      simp [stepD, hz]
    · have hone : 1 ≤ (rest.length : Int) := by
        have h2 := List.length_pos.mpr hrest
        exact_mod_cast h2
      have hpos2 : 0 < (stepD s j r).toRun := by
        simp only [stepD]
        omega
      have hlen2 : (rest.length : Int) = (stepD s j r).toRun := by
        simp only [stepD]
        omega
      rw [ih (stepD s j r) (fun i hi => hev i (by simp [hi])) hlen2 hpos2]
      have hcalls : (stepD s j r).calls = s.calls := by
        have hne : ¬(s.toRun - 1 = 0) := by omega
        simp [stepD, hne]
      rw [hcalls]

theorem setEv_length (ev : Nat → Option (Outcome α ε))
    (l : List (Option (Outcome α ε))) (i : Nat) :
    (setEv ev l i).length = l.length := by
  cases h : ev i <;> simp [setEv, h]

theorem foldl_setEv_length (ev : Nat → Option (Outcome α ε)) (order : List Nat)
    (l : List (Option (Outcome α ε))) :
    (order.foldl (setEv ev) l).length = l.length := by
  induction order generalizing l with
  | nil => rfl
  | cons j rest ih => rw [List.foldl_cons, ih, setEv_length]

theorem foldl_setEv_getElem_notmem (ev : Nat → Option (Outcome α ε))
    (order : List Nat) (j : Nat) :
    ∀ l : List (Option (Outcome α ε)), j ∉ order →
      (order.foldl (setEv ev) l)[j]? = l[j]? := by
  induction order with
  | nil =>
    intro l _
    rfl
  | cons i rest ih =>
    intro l hj
    have hji : i ≠ j := fun h => hj (by simp [h])
    have hjr : j ∉ rest := fun h => hj (by simp [h])
    rw [List.foldl_cons, ih _ hjr]
    cases h : ev i with
    | none => simp [setEv, h]
    | some r => simp [setEv, h, List.getElem?_set_ne hji]

theorem foldl_setEv_getElem_mem (ev : Nat → Option (Outcome α ε))
    (order : List Nat) (j : Nat) (r : Outcome α ε) (hr : ev j = some r) :
    ∀ l : List (Option (Outcome α ε)), j ∈ order → j < l.length →
      (order.foldl (setEv ev) l)[j]? = some (some r) := by
  induction order with
  | nil =>
    intro l hmem _
    cases hmem
  | cons i rest ih =>
    intro l hmem hj
    rw [List.foldl_cons]
    by_cases hjr : j ∈ rest
    · exact ih _ hjr (by rw [setEv_length]; exact hj)
    · have hji : j = i := by
        rcases List.mem_cons.mp hmem with h | h
        · exact h
        · exact absurd h hjr
      subst hji
      rw [foldl_setEv_getElem_notmem ev rest j _ hjr]
      simp [setEv, hr, List.getElem?_set_self hj]

theorem runTasks_eq_foldl (cacheOn : Bool) (cenv : CacheEnv)
    (compute : Task π → Except ε α) (parse : String → Option α)
    (tasks : List (Task π)) (order : List Nat) (hne : tasks ≠ []) :
    runTasks cacheOn cenv compute parse tasks order
      = order.foldl (runStep (evOf cacheOn cenv compute parse tasks))
          (initState α ε tasks.length) := by
  have h : tasks.isEmpty = false := by simpa using hne
  simp [runTasks, h]

theorem evOf_isSome (cacheOn : Bool) (cenv : CacheEnv)
    (compute : Task π → Except ε α) (parse : String → Option α)
    (tasks : List (Task π)) (i : Nat) (hi : i < tasks.length)
    (hstep : ∀ t ∈ tasks, (fateOutcome? (taskFate cacheOn cenv compute parse t)).isSome) :
    (evOf cacheOn cenv compute parse tasks i).isSome := by
  simp only [evOf, List.getElem?_eq_getElem hi, Option.some_bind]
  exact hstep _ (List.getElem_mem hi)

theorem evOf_eq (cacheOn : Bool) (cenv : CacheEnv)
    (compute : Task π → Except ε α) (parse : String → Option α)
    (tasks : List (Task π)) (i : Nat) (t : Task π) (hit : tasks[i]? = some t) :
    evOf cacheOn cenv compute parse tasks i
      = fateOutcome? (taskFate cacheOn cenv compute parse t) := by
  simp [evOf, hit]

/-- Completion of a batch: under any schedule that is a permutation of
the task indices, with every task's continuation reaching `step`, the
callback fires once with the index-correspondent results list.  Shared
workhorse behind the dispatcher-level claims. -/
theorem runTasks_complete (cacheOn : Bool) (cenv : CacheEnv)
    (compute : Task π → Except ε α) (parse : String → Option α)
    (tasks : List (Task π)) (order : List Nat)
    (hperm : order.Perm (List.range tasks.length))
    (hstep : ∀ t ∈ tasks,
      (fateOutcome? (taskFate cacheOn cenv compute parse t)).isSome) :
    ∃ res : List (Option (Outcome α ε)),
      (runTasks cacheOn cenv compute parse tasks order).calls = [res] ∧
      res.length = tasks.length ∧
      ∀ i : Nat, ∀ t : Task π, tasks[i]? = some t →
        res[i]? = some (fateOutcome? (taskFate cacheOn cenv compute parse t)) := by
  by_cases hne : tasks = []
  · subst hne
    refine ⟨[], by simp [runTasks], rfl, ?_⟩
    intro i t hit
    simp at hit
  · have hn : 0 < tasks.length := List.length_pos.mpr hne
    have horder_mem : ∀ i ∈ order, i < tasks.length := by
      intro i hi
      exact List.mem_range.mp (hperm.mem_iff.mp hi)
    have hev : ∀ i ∈ order,
        (evOf cacheOn cenv compute parse tasks i).isSome := by
      intro i hi
      exact evOf_isSome cacheOn cenv compute parse tasks i (horder_mem i hi) hstep
    have hlen : order.length = tasks.length := by
      rw [hperm.length_eq, List.length_range]
    rw [runTasks_eq_foldl cacheOn cenv compute parse tasks order hne]
    have hcalls := foldl_runStep_calls_done
      (evOf cacheOn cenv compute parse tasks) order
      (initState α ε tasks.length) hev
      (by simp [initState, hlen]) (by simpa [initState] using hn)
    have hres := foldl_runStep_results
      (evOf cacheOn cenv compute parse tasks) order (initState α ε tasks.length)
    have hcalls2 : (order.foldl (runStep (evOf cacheOn cenv compute parse tasks))
          (initState α ε tasks.length)).calls
        = [(order.foldl (runStep (evOf cacheOn cenv compute parse tasks))
          (initState α ε tasks.length)).results] := by
      rw [hcalls]
      rfl
    refine ⟨_, hcalls2, ?_, ?_⟩
    · rw [hres]
      rw [foldl_setEv_length]
      simp [initState]
    · intro i t hit
      have hi : i < tasks.length := by
        rcases List.getElem?_eq_some_iff.mp hit with ⟨h, _⟩
        exact h
      have hmem : i ∈ order := hperm.mem_iff.mpr (List.mem_range.mpr hi)
      have hevi : evOf cacheOn cenv compute parse tasks i
          = fateOutcome? (taskFate cacheOn cenv compute parse t) :=
        evOf_eq cacheOn cenv compute parse tasks i t hit
      obtain ⟨r, hr⟩ := Option.isSome_iff_exists.mp
        (hstep t (List.getElem?_mem hit))
      rw [hres]
      have := foldl_setEv_getElem_mem (evOf cacheOn cenv compute parse tasks)
        order i r (by rw [hevi, hr]) (List.replicate tasks.length none) hmem
        (by simpa using hi)
      show (List.foldl (setEv (evOf cacheOn cenv compute parse tasks))
          (List.replicate tasks.length none) order)[i]?
        = some (fateOutcome? (taskFate cacheOn cenv compute parse t))
      rw [this, hr]

theorem encodeReplacer_keeps (l : List (String × String))
    (hnk : ("cacheKey" : String) ∉ l.map Prod.fst) :
    l.filterMap encodeReplacer = l := by
  induction l with
  | nil => rfl
  | cons kv rest ih =>
    simp only [List.map_cons, List.mem_cons] at hnk
    push_neg at hnk
    obtain ⟨h1, h2⟩ := hnk
    rw [List.filterMap_cons]
    have hk : encodeReplacer kv = some kv := by
      unfold encodeReplacer
      exact if_neg (fun h => h1 h.symm)
    rw [hk, ih h2]

theorem encodeReplacer_removes (l : List (String × String)) :
    ("cacheKey" : String) ∉ (l.filterMap encodeReplacer).map Prod.fst := by
  induction l with
  | nil => simp
  | cons kv rest ih =>
    rw [List.filterMap_cons]
    cases h : encodeReplacer kv with
    | none => exact ih
    | some kv2 =>
      simp only [List.map_cons, List.mem_cons]
      rintro (h1 | h1)
      · unfold encodeReplacer at h
        by_cases hk : kv.1 = "cacheKey"
        · rw [if_pos hk] at h
          cases h
        · rw [if_neg hk] at h
          injection h with h
          subst h
          exact hk h1.symm
      · exact ih h1

theorem requestFields_key_free (pf : π → List (String × String)) (p : π)
    (k : String) :
    requestFields pf { cacheKey := k, payload := p }
      = (pf p).filterMap encodeReplacer := by
  unfold requestFields
  rw [List.filterMap_cons]
  simp [encodeReplacer]

theorem requestFields_eq (pf : π → List (String × String)) (t : Task π)
    (hnk : ("cacheKey" : String) ∉ (pf t.payload).map Prod.fst) :
    requestFields pf t = pf t.payload :=
  calc requestFields pf t
      = (pf t.payload).filterMap encodeReplacer :=
        requestFields_key_free pf t.payload t.cacheKey
    _ = pf t.payload := encodeReplacer_keeps _ hnk

/-! ## Claim theorems -/

/-- C1: for every batch of N tasks given to `runTasks`, under any
completion schedule (a permutation of the task indices — arbitrary
completion order, arbitrary cache-hit/miss mix) in which every task's
outcome is delivered, the completion callback receives a result list of
exactly N entries whose entry at index `i` is the outcome of task `i`;
for the empty batch the callback is invoked immediately with the empty
list (the `tasks = []` instance of this statement, where the schedule is
forced empty). -/
theorem runTasks_index_correspondence (cacheOn : Bool) (cenv : CacheEnv)
    (compute : Task π → Except ε α) (parse : String → Option α)
    (tasks : List (Task π)) (order : List Nat)
    (hperm : order.Perm (List.range tasks.length))
    (hstep : ∀ t ∈ tasks,
      (fateOutcome? (taskFate cacheOn cenv compute parse t)).isSome) :
    ∃ res : List (Option (Outcome α ε)),
      (runTasks cacheOn cenv compute parse tasks order).calls = [res] ∧
      res.length = tasks.length ∧
      ∀ i : Nat, ∀ t : Task π, tasks[i]? = some t →
        res[i]? = some (fateOutcome? (taskFate cacheOn cenv compute parse t)) :=
  runTasks_complete cacheOn cenv compute parse tasks order hperm hstep

/-- Witness for C1: a concrete two-task batch with no cache hits whose
tasks complete in inverted order still delivers `[outcome 0, outcome 1]`
in one callback invocation. -/
theorem runTasks_index_correspondence_witness :
    ∃ res : List (Option (Outcome Nat String)),
      (runTasks true exEnvMiss exCompute exParse [exTask, exTask2]
        [1, 0]).calls = [res] ∧
      res.length = 2 ∧
      ∀ i : Nat, ∀ t : Task Unit, [exTask, exTask2][i]? = some t →
        res[i]? = some (fateOutcome? (taskFate true exEnvMiss exCompute exParse t)) :=
  runTasks_index_correspondence true exEnvMiss exCompute exParse
    [exTask, exTask2] [1, 0] (by decide) (by decide)

/-- C2: a task whose cache get resolves with a deserializable blob takes
its slot outcome from the stored, deserialized value, with zero compute
invocations. -/
theorem cache_hit_uses_stored (cenv : CacheEnv) (compute : Task π → Except ε α)
    (parse : String → Option α) (t : Task π) (blob : String) (d : α)
    (hget : cenv.get t.cacheKey = GetResult.hit blob)
    (hparse : parse blob = some d) :
    taskFate true cenv compute parse t = .stepped (.data d) 0 := by
  simp [taskFate, hget, hparse]

/-- Witness for C2 at a concrete cache holding blob `"7"`. -/
theorem cache_hit_uses_stored_witness :
    taskFate true exEnvGood exCompute exParse exTask
      = .stepped (.data (7 : Nat)) 0 :=
  cache_hit_uses_stored exEnvGood exCompute exParse exTask ("7") 7
    (by decide) (by decide)

/-- C3 (amended): a task whose cache get rejects — a missing key or a
failed read — invokes the compute function exactly once; its outcome is
recorded at the task's slot provided the subsequent cache write settles.
The original claim's third antecedent (a stored blob that fails to
deserialize) is refuted by `corrupt_blob_no_compute_cex`. -/
theorem cache_reject_computes_once (cenv : CacheEnv)
    (compute : Task π → Except ε α) (parse : String → Option α) (t : Task π)
    (hget : cenv.get t.cacheKey = GetResult.reject) :
    Fate.count (taskFate true cenv compute parse t) = 1 ∧
    (cenv.put t.cacheKey ≠ PutResult.pending →
      taskFate true cenv compute parse t
        = .stepped (computeOutcome compute t) 1) := by
  constructor
  · simp only [taskFate, if_pos rfl, hget]
    unfold enqueueFate
    cases hc : compute t with
    | error e => rfl
    | ok d =>
      cases hput : cenv.put t.cacheKey <;> simp [Fate.count]
  · intro hp
    simp only [taskFate, if_pos rfl, hget]
    unfold enqueueFate computeOutcome
    cases hc : compute t with
    | error e => rfl
    | ok d =>
      cases hput : cenv.put t.cacheKey with
      | pending => exact absurd hput hp
      | resolves => simp
      | rejects => simp

/-- Witness for C3's amended theorem at a concrete rejecting cache. -/
theorem cache_reject_computes_once_witness :
    Fate.count (taskFate true exEnvMiss exCompute exParse exTask) = 1 ∧
    (exEnvMiss.put exTask.cacheKey ≠ PutResult.pending →
      taskFate true exEnvMiss exCompute exParse exTask
        = .stepped (computeOutcome exCompute exTask) 1) :=
  cache_reject_computes_once exEnvMiss exCompute exParse exTask (by decide)

/-- Counterexample to C3 as stated: with the cache get resolving to a
blob `JSON.parse` cannot parse, the parse failure inside the fulfilled
handler is an unhandled rejection — the compute function is invoked
zero times (not exactly once) and no outcome is ever recorded: the
one-task batch's callback never fires. -/
theorem corrupt_blob_no_compute_cex :
    taskFate true exEnvBadBlob exCompute exParse exTask
      = Fate.wedged 0 ∧
    (runTasks true exEnvBadBlob exCompute exParse [exTask] [0]).calls = [] := by
  decide

/-- C4 (amended): a failed cache write is swallowed — the task's fate
is identical under a rejecting and under a resolving put, the recorded
outcome being the compute result either way — but the count-down step
runs only in the `.then(done, done)` continuation of the write, i.e.
after the write settles (a never-settling write blocks delivery, see
`pending_put_blocks_delivery_cex`). -/
theorem put_failure_swallowed (cenv cenv2 : CacheEnv)
    (compute : Task π → Except ε α) (parse : String → Option α) (t : Task π)
    (d : α)
    (hget : cenv.get t.cacheKey = GetResult.reject)
    (hget2 : cenv2.get t.cacheKey = GetResult.reject)
    (hok : compute t = .ok d)
    (hput : cenv.put t.cacheKey = PutResult.rejects)
    (hput2 : cenv2.put t.cacheKey = PutResult.resolves) :
    taskFate true cenv compute parse t = .stepped (.data d) 1 ∧
    taskFate true cenv compute parse t = taskFate true cenv2 compute parse t := by
  have h1 : taskFate true cenv compute parse t = .stepped (.data d) 1 := by
    simp [taskFate, hget, enqueueFate, hok, hput]
  have h2 : taskFate true cenv2 compute parse t = .stepped (.data d) 1 := by
    simp [taskFate, hget2, enqueueFate, hok, hput2]
  exact ⟨h1, h1.trans h2.symm⟩

/-- Witness for C4's amended theorem: concrete rejecting-put and
resolving-put caches around the same succeeding compute. -/
theorem put_failure_swallowed_witness :
    taskFate true exEnvPutFails exCompute exParse exTask
      = .stepped (.data (5 : Nat)) 1 ∧
    taskFate true exEnvPutFails exCompute exParse exTask
      = taskFate true exEnvMiss exCompute exParse exTask :=
  put_failure_swallowed exEnvPutFails exEnvMiss exCompute exParse exTask 5
    (by decide) (by decide) rfl (by decide) (by decide)

/-- Counterexample to C4 as stated: the claim says delivery of the
task's result (the count-down step) is not blocked on the cache write
completing; but with a put that never settles, the compute has
succeeded (one invocation) and yet `step` never runs — the one-task
batch's callback is never invoked. -/
theorem pending_put_blocks_delivery_cex :
    taskFate true exEnvPendingPut exCompute exParse exTask
      = Fate.wedged 1 ∧
    (runTasks true exEnvPendingPut exCompute exParse [exTask] [0]).calls
      = [] := by
  decide

/-- C5 (amended): when every task's continuation chain settles, the
batch fully completes: one callback invocation carrying one outcome per
task, a per-task compute error recorded at its own slot while every
other slot carries its own task's outcome, unaffected.  (A task whose
cached blob fails to deserialize, or whose cache write never settles,
instead leaves the batch permanently incomplete — neither results nor a
batch error: see `batch_incomplete_cex`.) -/
theorem per_task_error_isolated (cacheOn : Bool) (cenv : CacheEnv)
    (compute : Task π → Except ε α) (parse : String → Option α)
    (tasks : List (Task π)) (order : List Nat) (j : Nat) (t : Task π)
    (e : ε) (c : Nat)
    (hperm : order.Perm (List.range tasks.length))
    (hstep : ∀ u ∈ tasks,
      (fateOutcome? (taskFate cacheOn cenv compute parse u)).isSome)
    (hj : tasks[j]? = some t)
    (hfe : taskFate cacheOn cenv compute parse t = .stepped (.error e) c) :
    ∃ res : List (Option (Outcome α ε)),
      (runTasks cacheOn cenv compute parse tasks order).calls = [res] ∧
      res.length = tasks.length ∧
      res[j]? = some (some (.error e)) ∧
      ∀ i : Nat, ∀ u : Task π, tasks[i]? = some u →
        res[i]? = some (fateOutcome? (taskFate cacheOn cenv compute parse u)) := by
  obtain ⟨res, hcalls, hlen, hmap⟩ :=
    runTasks_complete cacheOn cenv compute parse tasks order hperm hstep
  refine ⟨res, hcalls, hlen, ?_, hmap⟩
  rw [hmap j t hj, hfe]
  rfl

/-- Witness for C5's amended theorem: a two-task batch whose second
task's compute deterministically errors still completes with the first
task's result intact and the error at slot 1. -/
theorem per_task_error_isolated_witness :
    ∃ res : List (Option (Outcome Nat String)),
      (runTasks true exEnvMiss exComputeMix exParse [exTask, exTask2]
        [0, 1]).calls = [res] ∧
      res.length = 2 ∧
      res[1]? = some (some (.error ("boom"))) ∧
      ∀ i : Nat, ∀ u : Task Unit, [exTask, exTask2][i]? = some u →
        res[i]? = some (fateOutcome? (taskFate true exEnvMiss exComputeMix exParse u)) :=
  per_task_error_isolated true exEnvMiss exComputeMix exParse
    [exTask, exTask2] [0, 1] 1 exTask2 ("boom") 1
    (by decide) (by decide) (by decide) (by decide)

/-- Counterexample to C5 as stated: a two-task batch where task 0 hits
the cache cleanly but task 1's cached blob fails to deserialize is
neither fully completed (the callback never fires) nor failed
atomically (no batch error exists; `runTasks` only ever passes `null`
as the error) — task 0's outcome is even recorded internally, yet the
count-down never reaches zero. -/
theorem batch_incomplete_cex :
    (runTasks true exEnvMixed exCompute exParse [exTask, exTask2]
      [0, 1]).calls = [] ∧
    (runTasks true exEnvMixed exCompute exParse [exTask, exTask2]
      [0, 1]).results = [some (.data (7 : Nat)), none] ∧
    (runTasks true exEnvMixed exCompute exParse [exTask, exTask2]
      [0, 1]).toRun = 1 := by
  decide

/-- C6: for every non-empty batch, under any completion schedule
delivering every task's outcome, the callback is invoked exactly once
(the invocation list of the full run is a singleton), never earlier
(after any proper prefix of the schedule the invocation list is empty),
and at the single invocation every task's outcome has been recorded. -/
theorem callback_exactly_once (cacheOn : Bool) (cenv : CacheEnv)
    (compute : Task π → Except ε α) (parse : String → Option α)
    (tasks : List (Task π)) (order p q : List Nat)
    (hne : tasks ≠ [])
    (hperm : order.Perm (List.range tasks.length))
    (hstep : ∀ t ∈ tasks,
      (fateOutcome? (taskFate cacheOn cenv compute parse t)).isSome)
    (hpq : order = p ++ q) (hq : q ≠ []) :
    (runTasks cacheOn cenv compute parse tasks p).calls = [] ∧
    ∃ res : List (Option (Outcome α ε)),
      (runTasks cacheOn cenv compute parse tasks order).calls = [res] ∧
      ∀ i : Nat, i < tasks.length →
        ∃ r : Outcome α ε, res[i]? = some (some r) := by
  have hlen : order.length = tasks.length := by
    rw [hperm.length_eq, List.length_range]
  constructor
  · rw [runTasks_eq_foldl cacheOn cenv compute parse tasks p hne]
    have hevp : ∀ i ∈ p,
        (evOf cacheOn cenv compute parse tasks i).isSome := by
      intro i hi
      have hio : i ∈ order := by
        rw [hpq]
        exact List.mem_append_left q hi
      have hilt : i < tasks.length := List.mem_range.mp (hperm.mem_iff.mp hio)
      exact evOf_isSome cacheOn cenv compute parse tasks i hilt hstep
    have hplt : (p.length : Int) < (initState α ε tasks.length).toRun := by
      have hql : 0 < q.length := List.length_pos.mpr hq
      have : p.length + q.length = tasks.length := by
        rw [← hlen, hpq, List.length_append]
      simp only [initState]
      omega
    exact foldl_runStep_calls_lt (evOf cacheOn cenv compute parse tasks) p
      (initState α ε tasks.length) hevp hplt
  · obtain ⟨res, hcalls, hrlen, hmap⟩ :=
      runTasks_complete cacheOn cenv compute parse tasks order hperm hstep
    refine ⟨res, hcalls, ?_⟩
    intro i hi
    have hit : tasks[i]? = some tasks[i] := List.getElem?_eq_getElem hi
    obtain ⟨r, hr⟩ := Option.isSome_iff_exists.mp
      (hstep tasks[i] (List.getElem_mem hi))
    refine ⟨r, ?_⟩
    rw [hmap i tasks[i] hit, hr]

/-- Witness for C6: concrete two-task batch, schedule `[1, 0]` split as
`[1] ++ [0]` — no callback after the proper prefix, exactly one at the
end with both slots recorded. -/
theorem callback_exactly_once_witness :
    (runTasks true exEnvMiss exCompute exParse [exTask, exTask2] [1]).calls
      = [] ∧
    ∃ res : List (Option (Outcome Nat String)),
      (runTasks true exEnvMiss exCompute exParse [exTask, exTask2]
        [1, 0]).calls = [res] ∧
      ∀ i : Nat, i < 2 → ∃ r : Outcome Nat String, res[i]? = some (some r) :=
  callback_exactly_once true exEnvMiss exCompute exParse [exTask, exTask2]
    [1, 0] [1] [0] (by decide) (by decide) (by decide) (by decide) (by decide)

/-- C7: for pure, deterministic tasks, running a batch through the
serializing worker-farm path (`workers > 0`) and running it inline
(`workers = 0`) produce identical dispatcher behaviour — identical
results, callback invocations and counter — for every batch, cache
environment and schedule, provided the transport round-trips the
payload (`dec` inverts the payload serialization and the payload has no
`cacheKey` field of its own). -/
theorem zero_worker_equivalence (w : Int) (minify : π → Except ε α)
    (pf : π → List (String × String))
    (dec : List (String × String) → Option π) (eFail : ε)
    (cacheOn : Bool) (cenv : CacheEnv) (parse : String → Option α)
    (tasks : List (Task π)) (order : List Nat)
    (hw : 0 < w)
    (hnk : ∀ p : π, ("cacheKey" : String) ∉ (pf p).map Prod.fst)
    (hrt : ∀ p : π, dec (pf p) = some p) :
    runTasks cacheOn cenv (computeOf w minify pf dec eFail) parse tasks order
      = runTasks cacheOn cenv (computeOf 0 minify pf dec eFail) parse tasks
          order := by
  have hfc : farmCompute minify pf dec eFail
      = fun t : Task π => minify t.payload := by
    funext t
    unfold farmCompute
    rw [requestFields_eq pf t (hnk t.payload), hrt t.payload]
  have h1 : computeOf w minify pf dec eFail = farmCompute minify pf dec eFail :=
    if_pos hw
  have h0 : computeOf 0 minify pf dec eFail
      = fun t : Task π => minify t.payload := if_neg (by omega)
  rw [h1, h0, hfc]

/-- Witness for C7 at a concrete one-task batch, `workers = 2` versus
`workers = 0`. -/
theorem zero_worker_equivalence_witness :
    runTasks false exEnvMiss (computeOf 2 exMinify exPayloadFields exDec ("fail"))
        exParse [exTask] [0]
      = runTasks false exEnvMiss (computeOf 0 exMinify exPayloadFields exDec ("fail"))
        exParse [exTask] [0] :=
  zero_worker_equivalence 2 exMinify exPayloadFields exDec ("fail") false
    exEnvMiss exParse [exTask] [0] (by omega)
    (fun p => by cases p; decide) (fun p => by cases p; rfl)

/-- C8: the request sent across the worker boundary — the field list of
`JSON.stringify(opt, encode)` — never contains a `cacheKey` field, is
independent of the task's cache key, and consequently what the worker
unit's compute function receives is independent of the cache key. -/
theorem request_excludes_cachekey (pf : π → List (String × String))
    (t : Task π) (k2 : String) (minify : π → Except ε α)
    (dec : List (String × String) → Option π) (eFail : ε) :
    ("cacheKey" : String) ∉ (requestFields pf t).map Prod.fst ∧
    requestFields pf { cacheKey := k2, payload := t.payload }
      = requestFields pf t ∧
    farmCompute minify pf dec eFail { cacheKey := k2, payload := t.payload }
      = farmCompute minify pf dec eFail t := by
  have hkey : ∀ k : String,
      requestFields pf { cacheKey := k, payload := t.payload }
        = (pf t.payload).filterMap encodeReplacer :=
    fun k => requestFields_key_free pf t.payload k
  have hteq : requestFields pf t
      = (pf t.payload).filterMap encodeReplacer := hkey t.cacheKey
  have h2 : requestFields pf { cacheKey := k2, payload := t.payload }
      = requestFields pf t := by
    rw [hkey k2, hteq]
  refine ⟨?_, h2, ?_⟩
  · rw [hteq]
    exact encodeReplacer_removes (pf t.payload)
  · unfold farmCompute
    rw [h2]

/-- C9 (amended): the dispatcher constructor performs no validation — a
negative `workers` value is accepted and stored unchanged (it survives
the `Math.min` clamp since it is below `cpus - 1`), and a batch run
under it behaves exactly as with `workers = 0`: the pool path requires
`workers > 0`, so execution is inline.  The original claim's fail-fast
behaviour is refuted by `negative_workers_accepted_cex`. -/
theorem negative_workers_inline (cpus : Nat) (dir : String) (c : CacheOpt)
    (w : Int) (hcpus : 1 ≤ cpus) (hw : w < 0) (minify : π → Except ε α)
    (pf : π → List (String × String))
    (dec : List (String × String) → Option π) (eFail : ε) :
    (mkUglify cpus dir (.obj c (.num w))).workers = w ∧
    computeOf ((mkUglify cpus dir (.obj c (.num w))).workers) minify pf dec
        eFail
      = computeOf 0 minify pf dec eFail := by
  have hwk : (mkUglify cpus dir (.obj c (.num w))).workers = w := by
    show (if (WorkersOpt.num w) = WorkersOpt.bool true then (cpus : Int) - 1
      else min (jsNumberOr0 (WorkersOpt.num w)) ((cpus : Int) - 1)) = w
    rw [if_neg (by simp)]
    show min w ((cpus : Int) - 1) = w
    exact min_eq_left (by omega)
  refine ⟨hwk, ?_⟩
  rw [hwk]
  have h1 : computeOf w minify pf dec eFail
      = fun t : Task π => minify t.payload := if_neg (by omega)
  have h0 : computeOf 0 minify pf dec eFail
      = fun t : Task π => minify t.payload := if_neg (by omega)
  rw [h1, h0]

/-- Witness for C9's amended theorem at `cpus = 4`, `workers = -2`. -/
theorem negative_workers_inline_witness :
    (mkUglify 4 ("dir") (.obj .undef (.num (-2)))).workers = -2 ∧
    computeOf ((mkUglify 4 ("dir") (.obj .undef (.num (-2)))).workers)
        exMinify exPayloadFields exDec ("fail")
      = computeOf 0 exMinify exPayloadFields exDec ("fail") :=
  negative_workers_inline 4 ("dir") .undef (-2) (by omega) (by omega)
    exMinify exPayloadFields exDec ("fail")

/-- Counterexample to C9 as stated: construction with `workers = -2`
does not fail — it yields a dispatcher whose worker count is `-2` — and
a batch is then executed under that configuration (here a one-task
batch runs to completion inline, callback invoked with its result). -/
theorem negative_workers_accepted_cex :
    (mkUglify 4 ("dir") (.obj .undef (.num (-2))))
      = { cache := .undef, workers := -2 } ∧
    (runTasks false exEnvMiss
      (computeOf (mkUglify 4 ("dir") (.obj .undef (.num (-2)))).workers
        exMinify exPayloadFields exDec ("fail"))
      exParse [exTask] [0]).calls = [[some (.data (5 : Nat))]] := by
  constructor
  · rfl
  · rfl

/-- C10: the boolean `true` as the `parallel` argument is construction
with `{ cache: true, workers: true }` — cache resolved to the default
plugin cache directory, workers to `cpus - 1`; `false` (and the absent
argument `{}`) yield a falsy cache and zero workers, i.e. inline
execution. -/
theorem parallel_bool_equivalence (cpus : Nat) (dir : String)
    (hcpus : 1 ≤ cpus) :
    mkUglify cpus dir (.bool true)
      = mkUglify cpus dir (.obj (.bool true) (.bool true)) ∧
    (mkUglify cpus dir (.bool true)).cache = .str dir ∧
    (mkUglify cpus dir (.bool true)).workers = (cpus : Int) - 1 ∧
    mkUglify cpus dir (.bool false)
      = mkUglify cpus dir (.obj (.bool false) (.bool false)) ∧
    cacheTruthy (mkUglify cpus dir (.bool false)).cache = false ∧
    (mkUglify cpus dir (.bool false)).workers = 0 ∧
    cacheTruthy (mkUglify cpus dir (.obj .undef .undef)).cache = false ∧
    (mkUglify cpus dir (.obj .undef .undef)).workers = 0 := by
  have hmin : min (0 : Int) ((cpus : Int) - 1) = 0 := min_eq_left (by omega)
  refine ⟨rfl, rfl, rfl, rfl, rfl, ?_, rfl, ?_⟩
  · show min (jsNumberOr0 (WorkersOpt.bool false)) ((cpus : Int) - 1) = 0
    simpa [jsNumberOr0] using hmin
  · show min (jsNumberOr0 WorkersOpt.undef) ((cpus : Int) - 1) = 0
    simpa [jsNumberOr0] using hmin

/-- Witness for C10 at `cpus = 4`. -/
theorem parallel_bool_equivalence_witness :
    mkUglify 4 ("cdir") (.bool true)
      = mkUglify 4 ("cdir") (.obj (.bool true) (.bool true)) ∧
    (mkUglify 4 ("cdir") (.bool true)).cache = .str ("cdir") ∧
    (mkUglify 4 ("cdir") (.bool true)).workers = (4 : Int) - 1 ∧
    mkUglify 4 ("cdir") (.bool false)
      = mkUglify 4 ("cdir") (.obj (.bool false) (.bool false)) ∧
    cacheTruthy (mkUglify 4 ("cdir") (.bool false)).cache = false ∧
    (mkUglify 4 ("cdir") (.bool false)).workers = 0 ∧
    cacheTruthy (mkUglify 4 ("cdir") (.obj .undef .undef)).cache = false ∧
    (mkUglify 4 ("cdir") (.obj .undef .undef)).workers = 0 :=
  parallel_bool_equivalence 4 ("cdir") (by omega)

end UWP
